import Mathlib

/-!
# Verification of the cxx-qt property code-generation core

A shallow embedding of the property code-generation core of the repository:

* `crates/cxx-qt-gen/src/generator/utils/rust.rs` — the type qualifier
  `syn_type_cxx_bridge_to_qualified`, the ident qualifier
  `syn_ident_cxx_bridge_to_qualified_impl` and the safety classifier
  `syn_type_is_cxx_bridge_unsafe`;
* `crates/cxx-qt-gen/src/generator/rust/property/setter.rs` — the setter
  fragment generator and the semantics of the mutator it emits;
* `crates/cxx-qt-gen/src/generator/rust/property/signal.rs` — the notify
  signal synthesizer.

The `syn` syntax-tree shapes used by those functions are embedded as a
mutual inductive family; sequences appearing inside the tree are embedded
as dedicated list types of the family so that all recursion is structural.
-/

namespace CxxQtGen

mutual

/-- The shapes of the `syn` type grammar that
`syn_type_cxx_bridge_to_qualified` and `syn_type_is_cxx_bridge_unsafe`
dispatch on.  `SynType.other` stands for every `syn::Type` variant that
falls into the `_others` arm of both functions.  An array length is an
opaque expression in `syn`; it is carried here as a `Nat` token which no
function inspects.  A `Type::Path` carries an optional qualified-self type
(untouched by both functions, as in the source) and the path itself. -/
inductive SynType where
  | array (elem : SynType) (len : Nat)
  | bareFn (inputs : TyList) (output : TyOpt)
  | path (qself : TyOpt) (p : SynPath)
  | ptr (mutable : Bool) (elem : SynType)
  | ref (mutable : Bool) (elem : SynType)
  | slice (elem : SynType)
  | tuple (elems : TyList)
  | other
  deriving DecidableEq

inductive TyList where
  | nil
  | cons (head : SynType) (tail : TyList)
  deriving DecidableEq

inductive TyOpt where
  | none
  | some (t : SynType)
  deriving DecidableEq

inductive SynPath where
  | mk (leadingColon : Bool) (segments : SegList)
  deriving DecidableEq

inductive SegList where
  | nil
  | cons (head : PathSegment) (tail : SegList)
  deriving DecidableEq

inductive PathSegment where
  | mk (ident : String) (arguments : PathArgs)
  deriving DecidableEq

inductive PathArgs where
  | noArgs
  | angleBracketed (args : ArgList)
  | parenthesized
  deriving DecidableEq

inductive ArgList where
  | nil
  | cons (head : GenericArg) (tail : ArgList)
  deriving DecidableEq

inductive GenericArg where
  | type (t : SynType)
  | other
  deriving DecidableEq

end

/-- The number of segments of a segment list. -/
def SegList.length : SegList → Nat
  | .nil => 0
  | .cons _ rest => 1 + rest.length

/-- The number of elements of a type list. -/
def TyList.length : TyList → Nat
  | .nil => 0
  | .cons _ rest => 1 + rest.length

/-- The `leading_colon` field of a path. -/
def SynPath.leadingColon : SynPath → Bool
  | .mk lc _ => lc

/-- The `segments` field of a path. -/
def SynPath.segments : SynPath → SegList
  | .mk _ segs => segs

/-- The `ident` field of a path segment. -/
def PathSegment.ident : PathSegment → String
  | .mk i _ => i

/-- The `arguments` field of a path segment. -/
def PathSegment.arguments : PathSegment → PathArgs
  | .mk _ args => args

/-- Build a path segment with no arguments from an ident, as
`syn::parse_str::<PathSegment>` does for a plain ident in the source. -/
def plainSeg (ident : String) : PathSegment := .mk ident .noArgs

/-- Build a bare (no leading colon) path from a list of plain idents. -/
def barePathOf (idents : List String) : SynPath :=
  .mk false (idents.foldr (fun i segs => .cons (plainSeg i) segs) .nil)

/-- A path type with no qualified self over plain idents. -/
def bareTyOf (idents : List String) : SynType :=
  .path .none (barePathOf idents)

/-! ## The safety classifier

`syn_type_is_cxx_bridge_unsafe` from
`crates/cxx-qt-gen/src/generator/utils/rust.rs` (lines 132-153):
a `Type::Path` is unsafe iff some segment has an angle-bracketed generic
argument list containing a type argument that is recursively unsafe; a
`Type::Ptr` is always unsafe; a `Type::Reference` is unsafe iff its
element is; every other shape is safe.  (The source name ends in a word
this development cannot use as a suffix, hence the `_ty` suffix.) -/

mutual

/-- The classifier `syn_type_is_cxx_bridge_unsafe` of the source. -/
def syn_type_is_cxx_bridge_unsafe_ty : SynType → Bool
  | .path _ (.mk _ segs) => segsHaveUnsafeArg segs
  | .ptr _ _ => true
  | .ref _ elem => syn_type_is_cxx_bridge_unsafe_ty elem
  | _ => false

/-- `segments.iter().any(...)` of the source classifier. -/
def segsHaveUnsafeArg : SegList → Bool
  | .nil => false
  | .cons (.mk _ args) rest => pathArgsHaveUnsafeArg args || segsHaveUnsafeArg rest

/-- The per-segment `match &segment.arguments` of the source classifier:
only `AngleBracketed` argument lists are inspected. -/
def pathArgsHaveUnsafeArg : PathArgs → Bool
  | .angleBracketed args => gArgsHaveUnsafeArg args
  | _ => false

/-- `angled.args.iter().any(...)` of the source classifier. -/
def gArgsHaveUnsafeArg : ArgList → Bool
  | .nil => false
  | .cons a rest => gArgHasUnsafeArg a || gArgsHaveUnsafeArg rest

/-- The per-argument `match generic` of the source classifier: only
`GenericArgument::Type` arguments are inspected. -/
def gArgHasUnsafeArg : GenericArg → Bool
  | .type t => syn_type_is_cxx_bridge_unsafe_ty t
  | .other => false

end

/-! ## The type qualifier

`syn_type_cxx_bridge_to_qualified` and
`syn_ident_cxx_bridge_to_qualified_impl` from
`crates/cxx-qt-gen/src/generator/utils/rust.rs` (lines 18-129). -/

/-- The caller-supplied `BTreeMap<Ident, Path>` of qualified mappings,
embedded as an association list (the map's keys are unique; none of the
theorems depend on entry order beyond first-match lookup). -/
def Mapping : Type := List (String × SynPath)

/-- `BTreeMap::get`. -/
def mapLookup : Mapping → String → Option SynPath
  | [], _ => Option.none
  | (k, v) :: rest, i => if k = i then Option.some v else mapLookup rest i

/-- `syn_ident_cxx_bridge_to_qualified_impl` of the source (lines 18-27):
a mapped ident is replaced by its mapped path wholesale, an unmapped ident
becomes `Path::from(ident)`, the bare one-segment path. -/
def syn_ident_cxx_bridge_to_qualified_impl (ident : String) (m : Mapping) : SynPath :=
  match mapLookup m ident with
  | Option.some qualifiedPath => qualifiedPath
  | Option.none => .mk false (.cons (plainSeg ident) .nil)

/-- The fixed shorthand table of the source (lines 74-85): the CXX types
`CxxString`, `CxxVector`, `SharedPtr`, `UniquePtr`, `WeakPtr` map to the
module path `cxx`, and `Pin` maps to `core::pin`. -/
def shorthandModulePathOf (ident : String) : Option (List String) :=
  if ident = "CxxString" ∨ ident = "CxxVector" ∨ ident = "SharedPtr"
      ∨ ident = "UniquePtr" ∨ ident = "WeakPtr" then
    Option.some ["cxx"]
  else if ident = "Pin" then
    Option.some ["core", "pin"]
  else
    Option.none

/-- The ident of the first segment, `path.segments.first()`. -/
def headIdent : SegList → Option String
  | .nil => Option.none
  | .cons seg _ => Option.some seg.ident

/-- The source's prefix injection (lines 88-93): each part of the module
path is parsed to an argument-free segment and inserted at index 0 in
reverse order, so the net effect is prepending the parts in order. -/
def prependModulePath : List String → SegList → SegList
  | [], segs => segs
  | part :: rest, segs => .cons (plainSeg part) (prependModulePath rest segs)

/-- `syn::Path::get_ident`: `Some` exactly when the path has no leading
colon and a single segment whose arguments are `PathArguments::None`. -/
def getIdent : SynPath → Option String
  | .mk false (.cons (.mk i .noArgs) .nil) => Option.some i
  | _ => Option.none

mutual

/-- `syn_type_cxx_bridge_to_qualified` of the source (lines 36-129):
rebuild every shape with qualified components; for a path, qualify the
generic arguments of every segment, then prepend the shorthand module
path when the first segment's ident is in the fixed table, then, if the
resulting path is a single bare ident, resolve it through the qualified
mappings.  The qualified-self of a path type is left untouched, as in the
source. -/
def syn_type_cxx_bridge_to_qualified (ty : SynType) (m : Mapping) : SynType :=
  match ty with
  | .array elem len => .array (syn_type_cxx_bridge_to_qualified elem m) len
  | .bareFn inputs output =>
      .bareFn (qualifyTyList inputs m) (qualifyTyOpt output m)
  | .path qself p => .path qself (qualifyPathImpl p m)
  | .ptr mutable elem => .ptr mutable (syn_type_cxx_bridge_to_qualified elem m)
  | .ref mutable elem => .ref mutable (syn_type_cxx_bridge_to_qualified elem m)
  | .slice elem => .slice (syn_type_cxx_bridge_to_qualified elem m)
  | .tuple elems => .tuple (qualifyTyList elems m)
  | .other => .other

/-- Qualification of each element of a type sequence (`BareFn` inputs and
tuple elements), in order. -/
def qualifyTyList (tys : TyList) (m : Mapping) : TyList :=
  match tys with
  | .nil => .nil
  | .cons t rest => .cons (syn_type_cxx_bridge_to_qualified t m) (qualifyTyList rest m)

/-- Qualification of an optional type (`BareFn` return type). -/
def qualifyTyOpt (ty : TyOpt) (m : Mapping) : TyOpt :=
  match ty with
  | .none => .none
  | .some t => .some (syn_type_cxx_bridge_to_qualified t m)

/-- The `Type::Path` arm of the source qualifier (lines 58-101), acting
on the path: step 1 qualifies every segment's generic arguments, step 2
prepends the shorthand module path if the first segment's ident matches
the fixed table, step 3 applies the qualified mappings when the resulting
path still is a single bare ident. -/
def qualifyPathImpl (p : SynPath) (m : Mapping) : SynPath :=
  match p with
  | .mk lc segs =>
    let segs1 := qualifySegList segs m
    let segs2 :=
      match headIdent segs1 with
      | Option.some i =>
          match shorthandModulePathOf i with
          | Option.some moduleParts => prependModulePath moduleParts segs1
          | Option.none => segs1
      | Option.none => segs1
    match getIdent (.mk lc segs2) with
    | Option.some i => syn_ident_cxx_bridge_to_qualified_impl i m
    | Option.none => .mk lc segs2

/-- Step 1 of the path arm: qualify each segment's arguments in order. -/
def qualifySegList (segs : SegList) (m : Mapping) : SegList :=
  match segs with
  | .nil => .nil
  | .cons (.mk i args) rest => .cons (.mk i (qualifyPathArgs args m)) (qualifySegList rest m)

/-- Only angle-bracketed argument lists are qualified; `None` and
parenthesized arguments are left as they are (source lines 62-70). -/
def qualifyPathArgs (args : PathArgs) (m : Mapping) : PathArgs :=
  match args with
  | .noArgs => .noArgs
  | .angleBracketed as => .angleBracketed (qualifyGArgList as m)
  | .parenthesized => .parenthesized

/-- Qualification of each generic argument in order. -/
def qualifyGArgList (args : ArgList) (m : Mapping) : ArgList :=
  match args with
  | .nil => .nil
  | .cons a rest => .cons (qualifyGArg a m) (qualifyGArgList rest m)

/-- Only `GenericArgument::Type` arguments are qualified; every other
generic argument is left unchanged (source lines 64-68). -/
def qualifyGArg (a : GenericArg) (m : Mapping) : GenericArg :=
  match a with
  | .type t => .type (syn_type_cxx_bridge_to_qualified t m)
  | .other => .other

end

/-! ## Naming records

Modelled from the spec: the naming module (`generator/naming`) defining
`QPropertyName` and `QObjectName` is not among the sources; §3 describes
them as bundles of paired (native identifier, foreign-visible name)
tuples, with the field names visible at the use sites in `setter.rs` and
`signal.rs` (`idents.setter.cpp`, `idents.name.rust`,
`qobject_idents.cpp_class.rust`, `qobject_idents.rust_struct.rust`). -/

/-- Modelled from the spec: a paired (native/Rust identifier,
foreign-visible/C++ name) tuple of §3. -/
structure NamePair where
  rust : String
  cpp : String
  deriving DecidableEq

/-- Modelled from the spec: `QPropertyName`, the derived identifiers of
one declared property (§3 `PropertyNameSet`). -/
structure QPropertyName where
  name : NamePair
  getter : NamePair
  setter : NamePair
  notify : NamePair
  deriving DecidableEq

/-- Modelled from the spec: `QObjectName`, the identifiers of the owning
object (§3 `ObjectNameSet`): the foreign-side class name and the
native-side struct name. -/
structure QObjectName where
  cpp_class : NamePair
  rust_struct : NamePair
  deriving DecidableEq

/-- Modelled from the spec: `is_unsafe_cxx_type`
(`generator/rust/types.rs` is not among the sources); §4.4 step 1 states
that the setter computes `has_unsafe = is_unsafe(value_type)` where
`is_unsafe` is the §4.3 classifier, i.e. `syn_type_is_cxx_bridge_unsafe`. -/
def is_unsafe_cxx_type (ty : SynType) : Bool :=
  syn_type_is_cxx_bridge_unsafe_ty ty

/-! ## The setter fragment generator

`generate` from `crates/cxx-qt-gen/src/generator/rust/property/setter.rs`
(lines 13-69).  The emitted token streams are embedded structurally: the
one `extern "Rust"` block with its one foreign function declaration, and
the two `impl` fragments (the delegating wrapper on the Rust struct and
the mutator on the C++ class wrapper). -/

/-- `&mut Name`: an exclusive reference to a bare named type. -/
def refMutTo (name : String) : SynType :=
  .ref true (bareTyOf [name])

/-- `Pin<&mut Name>`: exclusive pinned access to a bare named type. -/
def pinMutRefTo (name : String) : SynType :=
  .path .none (.mk false (.cons
    (.mk "Pin" (.angleBracketed (.cons (.type (refMutTo name)) .nil))) .nil))

/-- One foreign function declaration inside an `extern "Rust"` block:
its `#[cxx_name = ...]` attribute value, whether the `unsafe` qualifier
token is present, the function name, the receiver type and the remaining
(name, type) arguments (source lines 34-39). -/
structure ExternRustFnDecl where
  cxx_name : String
  hasUnsafeQualifier : Bool
  name : String
  receiver : SynType
  args : List (String × SynType)
  deriving DecidableEq

/-- One boundary-declaration fragment: an `extern "Rust"` block holding
foreign function declarations. -/
inductive CxxBridgeItem where
  | externRustBlock (fns : List ExternRustFnDecl)
  deriving DecidableEq

/-- One implementation fragment emitted by the setter generator: the
delegating wrapper `impl RustStruct { pub fn setter(&mut self, cpp:
Pin<&mut CppClass>, value: ty) { cpp.setter(value); } }` (source lines
41-48) or the mutator `impl CppClass { pub fn setter(mut self:
Pin<&mut Self>, value: ty) { ... } }` (source lines 49-66). -/
inductive RustImplItem where
  | setterWrapperImpl (structName : String) (fnName : String)
      (cppClass : String) (valueTy : SynType)
  | setterMutatorImpl (cppClass : String) (fnName : String)
      (fieldIdent : String) (notifyIdent : String) (valueTy : SynType)
  deriving DecidableEq

/-- Modelled from the spec: `RustFragmentPair`
(`generator/rust/fragment.rs` is not among the sources); §3
`BridgeFragmentPair` describes it as two collections, the
boundary-declaration fragments and the implementation fragments, with the
field names `cxx_bridge` and `implementation` visible at the use site in
`setter.rs`. -/
structure RustFragmentPair where
  cxx_bridge : List CxxBridgeItem
  implementation : List RustImplItem
  deriving DecidableEq

namespace setter

/-- `generate` of `setter.rs` (lines 13-69): compute `has_unsafe` from
the value type, then produce the fragment pair with the single boundary
declaration and the two implementation fragments. -/
def generate (idents : QPropertyName) (qobject_idents : QObjectName)
    (ty : SynType) : RustFragmentPair :=
  let cpp_class_name_rust := qobject_idents.cpp_class.rust
  let rust_struct_name_rust := qobject_idents.rust_struct.rust
  let setter_cpp := idents.setter.cpp
  let setter_rust := idents.setter.rust
  let ident := idents.name.rust
  let notify_ident := idents.notify.rust
  let has_unsafe := is_unsafe_cxx_type ty
  { cxx_bridge := [.externRustBlock [
      { cxx_name := setter_cpp
        hasUnsafeQualifier := has_unsafe
        name := setter_rust
        receiver := refMutTo rust_struct_name_rust
        args := [("cpp", pinMutRefTo cpp_class_name_rust), ("value", ty)] }]]
    implementation := [
      .setterWrapperImpl rust_struct_name_rust setter_rust cpp_class_name_rust ty,
      .setterMutatorImpl cpp_class_name_rust setter_rust ident notify_ident ty] }

end setter

/-! ## Runtime semantics of the generated mutator

The mutator emitted at `setter.rs` lines 49-66 is

```
pub fn #setter_rust(mut self: Pin<&mut Self>, value: #ty) {
    if self.rust().#ident == value {
        // don't want to set the value again and reemit the signal,
        // as this can cause binding loops
        return;
    }
    unsafe { self.as_mut().rust_mut().#ident = value; }
    self.as_mut().#notify_ident();
}
```

Its observable state is the stored field value and the number of times
the notify signal has been invoked. -/

/-- The observable state the generated mutator acts on: the stored value
of the property's field and the number of notify invocations so far. -/
structure QObjectState (α : Type) where
  fieldValue : α
  notifyCount : Nat
  deriving DecidableEq

/-- One call of the generated mutator (source lines 53-64): if the new
value equals the stored value, return with nothing changed; otherwise
store the new value and invoke the notify signal once. -/
def setterBody {α : Type} [DecidableEq α] (s : QObjectState α) (value : α) :
    QObjectState α :=
  if s.fieldValue = value then s
  else { fieldValue := value, notifyCount := s.notifyCount + 1 }

/-- A sequence of calls of the generated mutator, first value first. -/
def runSetter {α : Type} [DecidableEq α] (s : QObjectState α) :
    List α → QObjectState α
  | [] => s
  | v :: vs => runSetter (setterBody s v) vs

/-- `changingSeq prev vs` holds when each value of `vs` differs from the
value stored just before its call: the first differs from `prev`, and
each later one differs from its predecessor. -/
def changingSeq {α : Type} [DecidableEq α] : α → List α → Bool
  | _, [] => true
  | prev, v :: vs => if prev = v then false else changingSeq v vs

/-! ## The notify signal synthesizer

`generate` from `crates/cxx-qt-gen/src/generator/rust/property/signal.rs`
(lines 13-27). -/

/-- The signature of a `ForeignItemFn`: its name, receiver type and the
remaining (name, type) arguments. -/
structure ForeignItemFnSig where
  name : String
  receiver : SynType
  args : List (String × SynType)
  deriving DecidableEq

/-- Modelled from the spec: `ParsedSignal` (`parser/signals.rs` is not
among the sources); §3 `SignalRecord` describes a signal's identity —
its declaration, its name pair, the owning object — and §4.5 states the
record is tagged as originating from a property (versus a user-declared
signal). -/
structure ParsedSignal where
  method : ForeignItemFnSig
  ident : NamePair
  qobject_ident : String
  fromProperty : Bool
  deriving DecidableEq

/-- Modelled from the spec: `ParsedSignal::from_property_method`, the
constructor used by the synthesizer, which tags the record as
property-originated (§4.5). -/
def ParsedSignal.from_property_method (method : ForeignItemFnSig)
    (ident : NamePair) (qobject_ident : String) : ParsedSignal :=
  { method := method, ident := ident, qobject_ident := qobject_ident,
    fromProperty := true }

namespace signal

/-- `generate` of `signal.rs` (lines 13-27): build the foreign-callable
declaration `fn #notify_rust(self: Pin<&mut #cpp_class_rust>);` and wrap
it through `ParsedSignal::from_property_method` with the property's
notify name pair and the owning class name. -/
def generate (idents : QPropertyName) (qobject_idents : QObjectName) :
    ParsedSignal :=
  let cpp_class_rust := qobject_idents.cpp_class.rust
  let notify_rust := idents.notify.rust
  let method : ForeignItemFnSig :=
    { name := notify_rust
      receiver := pinMutRefTo cpp_class_rust
      args := [] }
  ParsedSignal.from_property_method method idents.notify
    qobject_idents.cpp_class.rust

end signal

/-! ## Observation helpers used by the theorems -/

/-- `Name<Arg>`: a single-segment path type with one generic type
argument. -/
def generic1Ty (name : String) (arg : SynType) : SynType :=
  .path .none (.mk false (.cons
    (.mk name (.angleBracketed (.cons (.type arg) .nil))) .nil))

/-- Whether an optional return type is present. -/
def TyOpt.isPresent : TyOpt → Bool
  | .none => false
  | .some _ => true

/-- The outermost shape of a type: the constructor together with the
data the spec calls shape (array length expression, function arity and
return-type presence, pointer and reference mutability, tuple arity). -/
inductive TyShape where
  | array (len : Nat)
  | bareFn (arity : Nat) (hasOutput : Bool)
  | path
  | ptr (mutable : Bool)
  | ref (mutable : Bool)
  | slice
  | tuple (arity : Nat)
  | other
  deriving DecidableEq

/-- The shape of a type. -/
def SynType.shape : SynType → TyShape
  | .array _ len => .array len
  | .bareFn inputs output => .bareFn inputs.length output.isPresent
  | .path _ _ => .path
  | .ptr mutable _ => .ptr mutable
  | .ref mutable _ => .ref mutable
  | .slice _ => .slice
  | .tuple elems => .tuple elems.length
  | .other => .other

/-- A generic argument list with no type arguments. -/
def ArgList.allNonType : ArgList → Bool
  | .nil => true
  | .cons (.type _) _ => false
  | .cons .other rest => rest.allNonType

/-- A segment list in which no segment carries a generic type argument:
each segment's arguments are `None`, parenthesized, or angle-bracketed
with only non-type arguments. -/
def SegList.allNonTypeArgs : SegList → Bool
  | .nil => true
  | .cons (.mk _ .noArgs) rest => rest.allNonTypeArgs
  | .cons (.mk _ .parenthesized) rest => rest.allNonTypeArgs
  | .cons (.mk _ (.angleBracketed args)) rest =>
      args.allNonType && rest.allNonTypeArgs

/-- The qualified result of a shorthand-matching single-segment generic:
the module path prepended, as separate segments, ahead of the original
segment with its argument qualified. -/
def prefixedGeneric1Ty (pre : List String) (name : String) (arg : SynType) :
    SynType :=
  .path .none (.mk false (prependModulePath pre (.cons
    (.mk name (.angleBracketed (.cons (.type arg) .nil))) .nil)))

/-! # Theorems -/

/-- The fixed table maps to exactly two module paths. -/
theorem shorthand_table_cases {i : String} {pre : List String}
    (h : shorthandModulePathOf i = Option.some pre) :
    pre = ["cxx"] ∨ pre = ["core", "pin"] := by
  rw [shorthandModulePathOf] at h
  split_ifs at h
  · exact Or.inl (Option.some.inj h).symm
  · exact Or.inr (Option.some.inj h).symm

/-- A single bare ident path is recognized by getIdent. -/
theorem getIdent_single (i : String) :
    getIdent (.mk false (.cons (.mk i .noArgs) .nil)) = Option.some i := rfl

/-- A path with at least two segments is not a single bare ident. -/
theorem getIdent_cons_cons (lc : Bool) (s1 s2 : PathSegment) (rest : SegList) :
    getIdent (.mk lc (.cons s1 (.cons s2 rest))) = Option.none := by
  cases lc <;> (cases s1 with | mk i args => cases args <;> rfl)

/-- A path with a leading colon is not a single bare ident. -/
theorem getIdent_leading : ∀ segs : SegList,
    getIdent (.mk true segs) = Option.none
  | .nil => rfl
  | .cons (.mk _ .noArgs) .nil => rfl
  | .cons (.mk _ .noArgs) (.cons _ _) => rfl
  | .cons (.mk _ (.angleBracketed _)) _ => rfl
  | .cons (.mk _ .parenthesized) _ => rfl

/-- An empty path is not a single bare ident. -/
theorem getIdent_nil (lc : Bool) : getIdent (.mk lc .nil) = Option.none := by
  cases lc <;> rfl

/-- A path whose first segment has angle-bracketed arguments is not a
single bare ident. -/
theorem getIdent_angle (lc : Bool) (i : String) (as : ArgList)
    (rest : SegList) :
    getIdent (.mk lc (.cons (.mk i (.angleBracketed as)) rest)) =
      Option.none := by
  cases lc <;> cases rest <;> rfl

/-- A path whose first segment has parenthesized arguments is not a
single bare ident. -/
theorem getIdent_paren (lc : Bool) (i : String) (rest : SegList) :
    getIdent (.mk lc (.cons (.mk i .parenthesized) rest)) = Option.none := by
  cases lc <;> cases rest <;> rfl

/-- Segment qualification commutes with module-path prepending: the
prepended plain segments have no arguments to qualify. -/
theorem qualifySegList_prepend (m : Mapping) :
    ∀ (parts : List String) (segs : SegList),
      qualifySegList (prependModulePath parts segs) m =
        prependModulePath parts (qualifySegList segs m)
  | [], _ => rfl
  | part :: rest, segs => by
      show SegList.cons (.mk part (qualifyPathArgs .noArgs m))
          (qualifySegList (prependModulePath rest segs) m) = _
      rw [qualifyPathArgs, qualifySegList_prepend m rest segs]
      rfl

/-- A sequence of mutator calls that changes the value on every call
raises the notify count by exactly the number of calls. -/
theorem runSetter_changing_notifyCount {α : Type} [DecidableEq α] :
    ∀ (vs : List α) (s : QObjectState α), changingSeq s.fieldValue vs = true →
      (runSetter s vs).notifyCount = s.notifyCount + vs.length := by
  intro vs
  induction vs with
  | nil => intro s _; rfl
  | cons v vs ih =>
    intro s h
    rw [changingSeq] at h
    by_cases hv : s.fieldValue = v
    · simp [hv] at h
    · simp only [if_neg hv] at h
      have hstep : setterBody s v =
          { fieldValue := v, notifyCount := s.notifyCount + 1 } := by
        simp [setterBody, hv]
      calc (runSetter s (v :: vs)).notifyCount
          = (runSetter (setterBody s v) vs).notifyCount := rfl
        _ = (setterBody s v).notifyCount + vs.length := by
              apply ih
              rw [hstep]
              exact h
        _ = s.notifyCount + (v :: vs).length := by
              rw [hstep]
              simp [List.length_cons]
              omega

/-- Claim C1: the generated setter mutator leaves the state untouched
(no write, no notify) when the new value equals the stored one, and on a
differing value writes the field and fires notify exactly once; hence a
second call with an equal value fires nothing more, two consecutive
calls with the same value fire notify at most once total, and a sequence
of calls each differing from the previously stored value fires notify
exactly once per call. -/
theorem setter_mutator_notify_discipline {α : Type} [DecidableEq α]
    (s : QObjectState α) (v : α) (vs : List α) :
    (s.fieldValue = v → setterBody s v = s) ∧
    (s.fieldValue ≠ v →
      (setterBody s v).fieldValue = v ∧
      (setterBody s v).notifyCount = s.notifyCount + 1) ∧
    setterBody (setterBody s v) v = setterBody s v ∧
    (runSetter s [v, v]).notifyCount ≤ s.notifyCount + 1 ∧
    (changingSeq s.fieldValue vs = true →
      (runSetter s vs).notifyCount = s.notifyCount + vs.length) := by
  refine ⟨?_, ?_, ?_, ?_, ?_⟩
  · intro h; simp [setterBody, h]
  · intro h; simp [setterBody, h]
  · by_cases h : s.fieldValue = v
    · simp [setterBody, h]
    · simp [setterBody, h]
  · show (setterBody (setterBody s v) v).notifyCount ≤ s.notifyCount + 1
    by_cases h : s.fieldValue = v
    · simp [setterBody, h]
    · simp [setterBody, h]
  · exact runSetter_changing_notifyCount vs s

/-- Witness for C1: with the stored value 1, a call with 1 changes
nothing; with the stored value 0, a call with 1 stores 1 and fires one
notify; the changing sequence 1, 2, 3 from stored value 0 fires exactly
three notifies. -/
theorem setter_mutator_notify_discipline_witness :
    setterBody (⟨1, 0⟩ : QObjectState Nat) 1 = ⟨1, 0⟩ ∧
    ((setterBody (⟨0, 0⟩ : QObjectState Nat) 1).fieldValue = 1 ∧
      (setterBody (⟨0, 0⟩ : QObjectState Nat) 1).notifyCount = 0 + 1) ∧
    (runSetter (⟨0, 0⟩ : QObjectState Nat) [1, 2, 3]).notifyCount = 0 + 3 :=
  ⟨(setter_mutator_notify_discipline ⟨1, 0⟩ 1 []).1 rfl,
   (setter_mutator_notify_discipline ⟨0, 0⟩ 1 []).2.1 (by decide),
   (setter_mutator_notify_discipline ⟨0, 0⟩ 1 [1, 2, 3]).2.2.2.2 (by decide)⟩

/-- A generic argument list with no type arguments contributes no unsafe
argument. -/
theorem gArgs_allNonType_safe :
    ∀ args : ArgList, args.allNonType = true → gArgsHaveUnsafeArg args = false
  | .nil, _ => rfl
  | .cons (.type _) _, h => by simp [ArgList.allNonType] at h
  | .cons .other rest, h => by
      rw [ArgList.allNonType] at h
      simp [gArgsHaveUnsafeArg, gArgHasUnsafeArg, gArgs_allNonType_safe rest h]

/-- A segment list with no generic type arguments is reported safe. -/
theorem segs_allNonTypeArgs_safe :
    ∀ segs : SegList, segs.allNonTypeArgs = true → segsHaveUnsafeArg segs = false
  | .nil, _ => rfl
  | .cons (.mk _ .noArgs) rest, h => by
      rw [SegList.allNonTypeArgs] at h
      simp [segsHaveUnsafeArg, pathArgsHaveUnsafeArg,
        segs_allNonTypeArgs_safe rest h]
  | .cons (.mk _ .parenthesized) rest, h => by
      rw [SegList.allNonTypeArgs] at h
      simp [segsHaveUnsafeArg, pathArgsHaveUnsafeArg,
        segs_allNonTypeArgs_safe rest h]
  | .cons (.mk _ (.angleBracketed as)) rest, h => by
      rw [SegList.allNonTypeArgs, Bool.and_eq_true] at h
      simp [segsHaveUnsafeArg, pathArgsHaveUnsafeArg,
        gArgs_allNonType_safe as h.1, segs_allNonTypeArgs_safe rest h.2]

/-- The segments of a bare path of plain idents carry no generic
arguments at all. -/
theorem barePath_allNonTypeArgs :
    ∀ idents : List String, (barePathOf idents).segments.allNonTypeArgs = true
  | [] => rfl
  | i :: rest => by
      show SegList.allNonTypeArgs (.cons (plainSeg i) _) = true
      rw [plainSeg, SegList.allNonTypeArgs]
      exact barePath_allNonTypeArgs rest

/-- Claim C3: the safety classifier is total and pure by construction;
a raw pointer is unsafe whatever it points to; a reference is unsafe iff
its referent is; a path is unsafe iff some segment carries a recursively
unsafe generic type argument, and a path with no generic type arguments
(in particular any bare path) is safe; arrays, bare functions, slices,
tuples and other shapes are safe without recursion.  The eight literal
cases of the spec hold. -/
theorem classifier_characterization (mutable : Bool) (e : SynType)
    (qs : TyOpt) (lc : Bool) (segs : SegList) (inputs : TyList)
    (output : TyOpt) (len : Nat) (elems : TyList) (idents : List String) :
    syn_type_is_cxx_bridge_unsafe_ty (.ptr mutable e) = true ∧
    syn_type_is_cxx_bridge_unsafe_ty (.ref mutable e) =
      syn_type_is_cxx_bridge_unsafe_ty e ∧
    syn_type_is_cxx_bridge_unsafe_ty (.path qs (.mk lc segs)) =
      segsHaveUnsafeArg segs ∧
    (segs.allNonTypeArgs = true →
      syn_type_is_cxx_bridge_unsafe_ty (.path qs (.mk lc segs)) = false) ∧
    syn_type_is_cxx_bridge_unsafe_ty (.path qs (barePathOf idents)) = false ∧
    syn_type_is_cxx_bridge_unsafe_ty (.array e len) = false ∧
    syn_type_is_cxx_bridge_unsafe_ty (.bareFn inputs output) = false ∧
    syn_type_is_cxx_bridge_unsafe_ty (.slice e) = false ∧
    syn_type_is_cxx_bridge_unsafe_ty (.tuple elems) = false ∧
    syn_type_is_cxx_bridge_unsafe_ty .other = false ∧
    syn_type_is_cxx_bridge_unsafe_ty (bareTyOf ["i32"]) = false ∧
    syn_type_is_cxx_bridge_unsafe_ty
      (generic1Ty "Vector" (bareTyOf ["i32"])) = false ∧
    syn_type_is_cxx_bridge_unsafe_ty (.ref false (bareTyOf ["i32"])) = false ∧
    syn_type_is_cxx_bridge_unsafe_ty
      (.ref false (generic1Ty "Vector" (bareTyOf ["i32"]))) = false ∧
    syn_type_is_cxx_bridge_unsafe_ty (.ptr true (bareTyOf ["T"])) = true ∧
    syn_type_is_cxx_bridge_unsafe_ty
      (generic1Ty "Vector" (.ptr true (bareTyOf ["T"]))) = true ∧
    syn_type_is_cxx_bridge_unsafe_ty
      (.ref false (.ptr true (bareTyOf ["T"]))) = true ∧
    syn_type_is_cxx_bridge_unsafe_ty
      (.ref false (generic1Ty "Vector" (.ptr true (bareTyOf ["T"])))) = true := by
  refine ⟨rfl, rfl, rfl, ?_, ?_, rfl, rfl, rfl, rfl, rfl,
    by decide, by decide, by decide, by decide, by decide, by decide,
    by decide, by decide⟩
  · intro h
    show segsHaveUnsafeArg segs = false
    exact segs_allNonTypeArgs_safe segs h
  · show segsHaveUnsafeArg (barePathOf idents).segments = false
    exact segs_allNonTypeArgs_safe _ (barePath_allNonTypeArgs idents)

/-- Witness for C3: the segment list of the two-segment generic-free
path ffi::B has no type arguments, so the classifier reports the path
safe. -/
theorem classifier_characterization_witness :
    (SegList.cons (plainSeg "ffi") (.cons (plainSeg "B") .nil)).allNonTypeArgs
        = true ∧
    syn_type_is_cxx_bridge_unsafe_ty (.path .none (.mk false
      (.cons (plainSeg "ffi") (.cons (plainSeg "B") .nil)))) = false :=
  ⟨by decide,
   (classifier_characterization false .other .none false
      (.cons (plainSeg "ffi") (.cons (plainSeg "B") .nil))
      .nil .none 0 .nil []).2.2.2.1 (by decide)⟩

/-- On a path whose first segment's ident is in the fixed table, the
qualifier prepends the table's module path ahead of the
argument-qualified segments and applies no mapping substitution. -/
theorem qualify_shorthand_prepends (m : Mapping) (qs : TyOpt) (lc : Bool)
    (i : String) (args : PathArgs) (rest : SegList) (pre : List String)
    (h : shorthandModulePathOf i = Option.some pre) :
    syn_type_cxx_bridge_to_qualified
        (.path qs (.mk lc (.cons (.mk i args) rest))) m =
      .path qs (.mk lc (prependModulePath pre
        (qualifySegList (.cons (.mk i args) rest) m))) := by
  show SynType.path qs (qualifyPathImpl (.mk lc (.cons (.mk i args) rest)) m) = _
  rw [qualifyPathImpl]
  simp only [qualifySegList, headIdent, h]
  rcases shorthand_table_cases h with rfl | rfl <;>
    simp only [PathSegment.ident, h, prependModulePath, getIdent_cons_cons]

/-- Claim C5: a path type led by one of the boundary-shorthand names
(CxxString, CxxVector, SharedPtr, UniquePtr, WeakPtr mapped to the cxx
module; Pin mapped to core::pin) gets the table's fully-qualified module
path segments prepended ahead of its segments, a multi-segment module
path being inserted as separate segments in order, with generic type
arguments qualified recursively: CxxString becomes cxx::CxxString,
CxxVector keeps its argument, Pin applied to a mutable reference keeps
that reference, and a CXX type nested inside Pin is itself qualified. -/
theorem qualifier_shorthand_table (m : Mapping) (qs : TyOpt) (lc : Bool)
    (i : String) (args : PathArgs) (rest : SegList) (pre : List String)
    (h : shorthandModulePathOf i = Option.some pre) :
    syn_type_cxx_bridge_to_qualified
        (.path qs (.mk lc (.cons (.mk i args) rest))) m =
      .path qs (.mk lc (prependModulePath pre
        (qualifySegList (.cons (.mk i args) rest) m))) ∧
    shorthandModulePathOf "CxxString" = Option.some ["cxx"] ∧
    shorthandModulePathOf "CxxVector" = Option.some ["cxx"] ∧
    shorthandModulePathOf "SharedPtr" = Option.some ["cxx"] ∧
    shorthandModulePathOf "UniquePtr" = Option.some ["cxx"] ∧
    shorthandModulePathOf "WeakPtr" = Option.some ["cxx"] ∧
    shorthandModulePathOf "Pin" = Option.some ["core", "pin"] ∧
    syn_type_cxx_bridge_to_qualified (bareTyOf ["CxxString"]) [] =
      bareTyOf ["cxx", "CxxString"] ∧
    syn_type_cxx_bridge_to_qualified
        (generic1Ty "CxxVector" (bareTyOf ["T"])) [] =
      prefixedGeneric1Ty ["cxx"] "CxxVector" (bareTyOf ["T"]) ∧
    syn_type_cxx_bridge_to_qualified
        (generic1Ty "SharedPtr" (bareTyOf ["T"])) [] =
      prefixedGeneric1Ty ["cxx"] "SharedPtr" (bareTyOf ["T"]) ∧
    syn_type_cxx_bridge_to_qualified
        (generic1Ty "UniquePtr" (bareTyOf ["T"])) [] =
      prefixedGeneric1Ty ["cxx"] "UniquePtr" (bareTyOf ["T"]) ∧
    syn_type_cxx_bridge_to_qualified
        (generic1Ty "WeakPtr" (bareTyOf ["T"])) [] =
      prefixedGeneric1Ty ["cxx"] "WeakPtr" (bareTyOf ["T"]) ∧
    syn_type_cxx_bridge_to_qualified
        (generic1Ty "Pin" (.ref true (bareTyOf ["T"]))) [] =
      prefixedGeneric1Ty ["core", "pin"] "Pin" (.ref true (bareTyOf ["T"])) ∧
    syn_type_cxx_bridge_to_qualified
        (generic1Ty "Pin" (generic1Ty "UniquePtr" (bareTyOf ["T"]))) [] =
      prefixedGeneric1Ty ["core", "pin"] "Pin"
        (prefixedGeneric1Ty ["cxx"] "UniquePtr" (bareTyOf ["T"])) :=
  ⟨qualify_shorthand_prepends m qs lc i args rest pre h,
   by decide, by decide, by decide, by decide, by decide, by decide,
   by decide, by decide, by decide, by decide, by decide, by decide,
   by decide⟩

/-- Witness for C5: the table matches CxxString with module path cxx,
and the general prepend equation instantiated there yields the
crate-qualified form. -/
theorem qualifier_shorthand_table_witness :
    shorthandModulePathOf "CxxString" = Option.some ["cxx"] ∧
    syn_type_cxx_bridge_to_qualified
        (.path .none (.mk false (.cons (.mk "CxxString" .noArgs) .nil))) [] =
      .path .none (.mk false (prependModulePath ["cxx"]
        (qualifySegList (.cons (.mk "CxxString" .noArgs) .nil) []))) :=
  ⟨by decide,
   (qualifier_shorthand_table [] .none false "CxxString" .noArgs .nil ["cxx"]
      (by decide)).1⟩

/-- On a single bare ident whose name is not in the fixed table, the
qualifier is the ident qualifier. -/
theorem qualify_single_bare_ident (m : Mapping) (qs : TyOpt) (i : String)
    (hshort : shorthandModulePathOf i = Option.none) :
    syn_type_cxx_bridge_to_qualified
        (.path qs (.mk false (.cons (.mk i .noArgs) .nil))) m =
      .path qs (syn_ident_cxx_bridge_to_qualified_impl i m) := by
  show SynType.path qs (qualifyPathImpl _ m) = _
  rw [qualifyPathImpl]
  simp only [qualifySegList, qualifyPathArgs, headIdent, PathSegment.ident,
    hshort, getIdent_single]

/-- Claim C4 counterexample: with the mapping sending Pin to ffi::B, the
input type is a path consisting of the single bare identifier Pin, which
is a key of the mapping, yet the qualifier does not replace the path by
the mapped path ffi::B — the shorthand-table substitution is applied
instead, yielding core::pin::Pin. -/
theorem qualifier_mapping_exclusive_cex :
    mapLookup [("Pin", barePathOf ["ffi", "B"])] "Pin" =
      Option.some (barePathOf ["ffi", "B"]) ∧
    syn_type_cxx_bridge_to_qualified (bareTyOf ["Pin"])
        [("Pin", barePathOf ["ffi", "B"])] =
      bareTyOf ["core", "pin", "Pin"] ∧
    syn_type_cxx_bridge_to_qualified (bareTyOf ["Pin"])
        [("Pin", barePathOf ["ffi", "B"])] ≠
      .path .none (barePathOf ["ffi", "B"]) := by decide

/-- Claim C4 (amended): if the type is a path consisting of a single
bare identifier that is a key of the mapping and not one of the fixed
shorthand names, the qualifier replaces the entire path with the mapped
qualified path; the mapping substitution and the shorthand-prefix
substitution are mutually exclusive — when the identifier is in the
shorthand table the result is the prefixed path, independent of the
mapping, so at most one of the two substitutions is applied. -/
theorem qualifier_mapping_exclusive (m : Mapping) (qs : TyOpt) (i : String)
    (p : SynPath) (pre : List String) :
    (shorthandModulePathOf i = Option.none →
      mapLookup m i = Option.some p →
      syn_type_cxx_bridge_to_qualified
          (.path qs (.mk false (.cons (.mk i .noArgs) .nil))) m =
        .path qs p) ∧
    (shorthandModulePathOf i = Option.some pre →
      syn_type_cxx_bridge_to_qualified
          (.path qs (.mk false (.cons (.mk i .noArgs) .nil))) m =
        .path qs (.mk false (prependModulePath pre
          (.cons (.mk i .noArgs) .nil)))) := by
  constructor
  · intro hshort hmap
    rw [qualify_single_bare_ident m qs i hshort,
      syn_ident_cxx_bridge_to_qualified_impl, hmap]
  · intro hshort
    exact qualify_shorthand_prepends m qs false i .noArgs .nil pre hshort

/-- Witness for C4: the mapped non-shorthand ident A is replaced by
ffi::B, and the shorthand ident Pin keeps its prefixed form even with an
empty mapping. -/
theorem qualifier_mapping_exclusive_witness :
    syn_type_cxx_bridge_to_qualified (bareTyOf ["A"])
        [("A", barePathOf ["ffi", "B"])] =
      .path .none (barePathOf ["ffi", "B"]) ∧
    syn_type_cxx_bridge_to_qualified (bareTyOf ["Pin"]) [] =
      .path .none (.mk false (prependModulePath ["core", "pin"]
        (.cons (.mk "Pin" .noArgs) .nil))) :=
  ⟨(qualifier_mapping_exclusive [("A", barePathOf ["ffi", "B"])] .none "A"
      (barePathOf ["ffi", "B"]) []).1 (by decide) (by decide),
   (qualifier_mapping_exclusive [] .none "Pin" (barePathOf [])
      ["core", "pin"]).2 (by decide)⟩

/-- Claim C10 counterexample: with the mapping sending CxxString to
ffi::B, the input type is a path consisting of the single bare
identifier CxxString, a key of the mapping, yet the mapping's value path
is not inserted at all — the result is the shorthand-prefixed
cxx::CxxString. -/
theorem qualifier_mapping_verbatim_cex :
    mapLookup [("CxxString", barePathOf ["ffi", "B"])] "CxxString" =
      Option.some (barePathOf ["ffi", "B"]) ∧
    syn_type_cxx_bridge_to_qualified (bareTyOf ["CxxString"])
        [("CxxString", barePathOf ["ffi", "B"])] =
      bareTyOf ["cxx", "CxxString"] ∧
    bareTyOf ["cxx", "CxxString"] ≠ .path .none (barePathOf ["ffi", "B"]) := by
  decide

/-- Claim C10 (amended): when the mapping substitution applies — the
input path is a single bare identifier that is a mapping key and not one
of the fixed shorthand names — the mapping's value path is inserted
verbatim, for every value path; in particular a value path whose
segments contain shorthand names from the fixed table (UniquePtr, in
leading position) and mapping keys (A) is not itself rewritten. -/
theorem qualifier_mapping_verbatim (m : Mapping) (qs : TyOpt) (i : String)
    (p : SynPath) (hshort : shorthandModulePathOf i = Option.none)
    (hmap : mapLookup m i = Option.some p) :
    syn_type_cxx_bridge_to_qualified
        (.path qs (.mk false (.cons (.mk i .noArgs) .nil))) m =
      .path qs p ∧
    syn_type_cxx_bridge_to_qualified (bareTyOf ["A"])
        [("A", .mk false (.cons (plainSeg "UniquePtr")
          (.cons (plainSeg "A") .nil)))] =
      .path .none (.mk false (.cons (plainSeg "UniquePtr")
        (.cons (plainSeg "A") .nil))) := by
  constructor
  · rw [qualify_single_bare_ident m qs i hshort,
      syn_ident_cxx_bridge_to_qualified_impl, hmap]
  · decide

/-- Witness for C10: the mapped ident MyObject, not a shorthand name, is
replaced by the mapped path ffi::MyObject verbatim. -/
theorem qualifier_mapping_verbatim_witness :
    syn_type_cxx_bridge_to_qualified (bareTyOf ["MyObject"])
        [("MyObject", barePathOf ["ffi", "MyObject"])] =
      .path .none (barePathOf ["ffi", "MyObject"]) :=
  (qualifier_mapping_verbatim [("MyObject", barePathOf ["ffi", "MyObject"])]
    .none "MyObject" (barePathOf ["ffi", "MyObject"])
    (by decide) (by decide)).1

/-- Path-level form of the shorthand case: on a first-segment table
match, the qualifier prepends the module path and applies no mapping. -/
theorem qualifyPathImpl_shorthand (m : Mapping) (lc : Bool) (i : String)
    (args : PathArgs) (rest : SegList) (pre : List String)
    (h : shorthandModulePathOf i = Option.some pre) :
    qualifyPathImpl (.mk lc (.cons (.mk i args) rest)) m =
      .mk lc (prependModulePath pre
        (qualifySegList (.cons (.mk i args) rest) m)) := by
  rw [qualifyPathImpl]
  simp only [qualifySegList, headIdent, h]
  rcases shorthand_table_cases h with rfl | rfl <;>
    simp only [PathSegment.ident, h, prependModulePath, getIdent_cons_cons]

/-- Path-level form of the no-substitution case: with no table match on
the first segment and no single bare ident after argument qualification,
the qualifier only qualifies the segment arguments. -/
theorem qualifyPathImpl_no_shorthand (m : Mapping) (lc : Bool) (i : String)
    (args : PathArgs) (rest : SegList)
    (hsh : shorthandModulePathOf i = Option.none)
    (hgi : getIdent (.mk lc (.cons (.mk i (qualifyPathArgs args m))
      (qualifySegList rest m))) = Option.none) :
    qualifyPathImpl (.mk lc (.cons (.mk i args) rest)) m =
      .mk lc (.cons (.mk i (qualifyPathArgs args m))
        (qualifySegList rest m)) := by
  rw [qualifyPathImpl]
  simp only [qualifySegList, headIdent, PathSegment.ident, hsh, hgi]

/-- Path-level form of the mapping case: a single bare non-shorthand
ident resolves through the ident qualifier. -/
theorem qualifyPathImpl_single (m : Mapping) (i : String)
    (hsh : shorthandModulePathOf i = Option.none) :
    qualifyPathImpl (.mk false (.cons (.mk i .noArgs) .nil)) m =
      syn_ident_cxx_bridge_to_qualified_impl i m := by
  rw [qualifyPathImpl]
  simp only [qualifySegList, qualifyPathArgs, headIdent, PathSegment.ident,
    hsh, getIdent_single]

/-- A path whose segments are fixed under argument qualification, whose
first segment is not a table name, and which is not a single bare ident,
is a fixed point of path qualification. -/
theorem qualifyPathImpl_fixed_segs (m : Mapping) (lc : Bool) (i : String)
    (args : PathArgs) (rest : SegList)
    (hsh : shorthandModulePathOf i = Option.none)
    (hfix : qualifySegList (.cons (.mk i args) rest) m =
      .cons (.mk i args) rest)
    (hgi : getIdent (.mk lc (.cons (.mk i args) rest)) = Option.none) :
    qualifyPathImpl (.mk lc (.cons (.mk i args) rest)) m =
      .mk lc (.cons (.mk i args) rest) := by
  rw [qualifyPathImpl]
  simp only [hfix, headIdent, PathSegment.ident, hsh, hgi]

/-- A prefixed path — a table module path prepended ahead of a nonempty
fixed segment list — is a fixed point of path qualification. -/
theorem qualifyPathImpl_prefixed (m : Mapping) (lc : Bool)
    (pre : List String) (segs : SegList)
    (hpre : pre = ["cxx"] ∨ pre = ["core", "pin"])
    (hsegs : qualifySegList segs m = segs) (hne : segs ≠ SegList.nil) :
    qualifyPathImpl (.mk lc (prependModulePath pre segs)) m =
      .mk lc (prependModulePath pre segs) := by
  cases segs with
  | nil => exact absurd rfl hne
  | cons s srest =>
    rcases hpre with rfl | rfl
    · simp only [prependModulePath, plainSeg]
      rw [qualifyPathImpl_no_shorthand m lc "cxx" .noArgs (.cons s srest)
        (by decide)
        (by rw [show qualifyPathArgs PathArgs.noArgs m = PathArgs.noArgs
              from rfl, hsegs]
            exact getIdent_cons_cons lc (.mk "cxx" .noArgs) s srest)]
      rw [hsegs]
      rfl
    · simp only [prependModulePath, plainSeg]
      rw [qualifyPathImpl_no_shorthand m lc "core" .noArgs
        (.cons (.mk "pin" .noArgs) (.cons s srest)) (by decide)
        (by simp only [qualifySegList]
            exact getIdent_cons_cons lc (.mk "core" (qualifyPathArgs .noArgs m))
              (.mk "pin" (qualifyPathArgs .noArgs m)) _)]
      simp only [qualifySegList, qualifyPathArgs]
      rw [hsegs]

/-- Qualification keeps the number of elements of a type sequence. -/
theorem qualifyTyList_length (m : Mapping) :
    ∀ tys : TyList, (qualifyTyList tys m).length = tys.length
  | .nil => rfl
  | .cons t rest => by
      show 1 + (qualifyTyList rest m).length = 1 + rest.length
      rw [qualifyTyList_length m rest]

/-- Qualification keeps the presence of an optional return type. -/
theorem qualifyTyOpt_isPresent (m : Mapping) :
    ∀ ty : TyOpt, (qualifyTyOpt ty m).isPresent = ty.isPresent
  | .none => rfl
  | .some _ => rfl

/-- The qualifier preserves the outermost shape of every type. -/
theorem qualify_preserves_shape (m : Mapping) :
    ∀ t : SynType, (syn_type_cxx_bridge_to_qualified t m).shape = t.shape
  | .array _ _ => rfl
  | .bareFn inputs output => by
      show TyShape.bareFn (qualifyTyList inputs m).length
          (qualifyTyOpt output m).isPresent =
        TyShape.bareFn inputs.length output.isPresent
      rw [qualifyTyList_length, qualifyTyOpt_isPresent]
  | .path _ _ => rfl
  | .ptr _ _ => rfl
  | .ref _ _ => rfl
  | .slice _ => rfl
  | .tuple _ => by
      show TyShape.tuple (qualifyTyList _ m).length = TyShape.tuple _
      rw [qualifyTyList_length]
  | .other => rfl

/-- Claim C6: the output of the qualifier has the same shape as its
input — an array keeps its length expression, a slice stays a slice, a
tuple keeps its arity and its elements are rewritten elementwise in
order, a bare function keeps its parameter count, order and return-type
presence, a raw pointer and a reference keep their mutability, and the
shape outside the rewritten set is returned unchanged. -/
theorem qualifier_shape_preservation (m : Mapping) (t e : SynType)
    (elems inputs : TyList) (output : TyOpt) (len : Nat) (mutable : Bool) :
    (syn_type_cxx_bridge_to_qualified t m).shape = t.shape ∧
    syn_type_cxx_bridge_to_qualified (.array e len) m =
      .array (syn_type_cxx_bridge_to_qualified e m) len ∧
    syn_type_cxx_bridge_to_qualified (.slice e) m =
      .slice (syn_type_cxx_bridge_to_qualified e m) ∧
    syn_type_cxx_bridge_to_qualified (.tuple elems) m =
      .tuple (qualifyTyList elems m) ∧
    syn_type_cxx_bridge_to_qualified (.bareFn inputs output) m =
      .bareFn (qualifyTyList inputs m) (qualifyTyOpt output m) ∧
    syn_type_cxx_bridge_to_qualified (.ptr mutable e) m =
      .ptr mutable (syn_type_cxx_bridge_to_qualified e m) ∧
    syn_type_cxx_bridge_to_qualified (.ref mutable e) m =
      .ref mutable (syn_type_cxx_bridge_to_qualified e m) ∧
    (qualifyTyList elems m).length = elems.length ∧
    syn_type_cxx_bridge_to_qualified .other m = .other :=
  ⟨qualify_preserves_shape m t, rfl, rfl, rfl, rfl, rfl, rfl,
   qualifyTyList_length m elems, rfl⟩

mutual

/-- Under a qualification-stable mapping, the type qualifier is
idempotent. -/
theorem qualify_idem (m : Mapping)
    (hm : ∀ i p, mapLookup m i = Option.some p → qualifyPathImpl p m = p) :
    ∀ t : SynType,
      syn_type_cxx_bridge_to_qualified
          (syn_type_cxx_bridge_to_qualified t m) m =
        syn_type_cxx_bridge_to_qualified t m
  | .array e len => by
      show SynType.array (syn_type_cxx_bridge_to_qualified
        (syn_type_cxx_bridge_to_qualified e m) m) len = _
      rw [qualify_idem m hm e]
      rfl
  | .bareFn inputs output => by
      show SynType.bareFn (qualifyTyList (qualifyTyList inputs m) m)
        (qualifyTyOpt (qualifyTyOpt output m) m) = _
      rw [qualifyTyList_idem m hm inputs, qualifyTyOpt_idem m hm output]
      rfl
  | .path qs p => by
      show SynType.path qs (qualifyPathImpl (qualifyPathImpl p m) m) = _
      rw [qualifyPathImpl_idem m hm p]
      rfl
  | .ptr mutable e => by
      show SynType.ptr mutable (syn_type_cxx_bridge_to_qualified
        (syn_type_cxx_bridge_to_qualified e m) m) = _
      rw [qualify_idem m hm e]
      rfl
  | .ref mutable e => by
      show SynType.ref mutable (syn_type_cxx_bridge_to_qualified
        (syn_type_cxx_bridge_to_qualified e m) m) = _
      rw [qualify_idem m hm e]
      rfl
  | .slice e => by
      show SynType.slice (syn_type_cxx_bridge_to_qualified
        (syn_type_cxx_bridge_to_qualified e m) m) = _
      rw [qualify_idem m hm e]
      rfl
  | .tuple elems => by
      show SynType.tuple (qualifyTyList (qualifyTyList elems m) m) = _
      rw [qualifyTyList_idem m hm elems]
      rfl
  | .other => rfl

/-- Elementwise idempotence for type sequences. -/
theorem qualifyTyList_idem (m : Mapping)
    (hm : ∀ i p, mapLookup m i = Option.some p → qualifyPathImpl p m = p) :
    ∀ tys : TyList, qualifyTyList (qualifyTyList tys m) m = qualifyTyList tys m
  | .nil => rfl
  | .cons t rest => by
      show TyList.cons (syn_type_cxx_bridge_to_qualified
          (syn_type_cxx_bridge_to_qualified t m) m)
        (qualifyTyList (qualifyTyList rest m) m) = _
      rw [qualify_idem m hm t, qualifyTyList_idem m hm rest]
      rfl

/-- Idempotence for an optional return type. -/
theorem qualifyTyOpt_idem (m : Mapping)
    (hm : ∀ i p, mapLookup m i = Option.some p → qualifyPathImpl p m = p) :
    ∀ ty : TyOpt, qualifyTyOpt (qualifyTyOpt ty m) m = qualifyTyOpt ty m
  | .none => rfl
  | .some t => by
      show TyOpt.some (syn_type_cxx_bridge_to_qualified
        (syn_type_cxx_bridge_to_qualified t m) m) = _
      rw [qualify_idem m hm t]
      rfl

/-- Idempotence of path qualification under a stable mapping. -/
theorem qualifyPathImpl_idem (m : Mapping)
    (hm : ∀ i p, mapLookup m i = Option.some p → qualifyPathImpl p m = p) :
    ∀ p : SynPath, qualifyPathImpl (qualifyPathImpl p m) m = qualifyPathImpl p m
  | .mk lc .nil => by cases lc <;> rfl
  | .mk lc (.cons (.mk i args) rest) => by
      have hfix : qualifySegList (qualifySegList (.cons (.mk i args) rest) m) m
          = qualifySegList (.cons (.mk i args) rest) m :=
        qualifySegList_idem m hm (.cons (.mk i args) rest)
      cases hsh : shorthandModulePathOf i with
      | some pre =>
        rw [qualifyPathImpl_shorthand m lc i args rest pre hsh]
        exact qualifyPathImpl_prefixed m lc pre
          (qualifySegList (.cons (.mk i args) rest) m)
          (shorthand_table_cases hsh) hfix
          (by simp only [qualifySegList]
              exact fun h => SegList.noConfusion h)
      | none =>
        cases args with
        | angleBracketed as =>
          rw [qualifyPathImpl_no_shorthand m lc i (.angleBracketed as) rest hsh
            (getIdent_angle lc i (qualifyGArgList as m) (qualifySegList rest m))]
          simp only [qualifyPathArgs]
          rw [qualifyPathImpl_no_shorthand m lc i
            (.angleBracketed (qualifyGArgList as m)) (qualifySegList rest m) hsh
            (getIdent_angle lc i (qualifyGArgList (qualifyGArgList as m) m)
              (qualifySegList (qualifySegList rest m) m))]
          simp only [qualifyPathArgs]
          rw [qualifyGArgList_idem m hm as, qualifySegList_idem m hm rest]
        | parenthesized =>
          rw [qualifyPathImpl_no_shorthand m lc i .parenthesized rest hsh
            (getIdent_paren lc i (qualifySegList rest m))]
          simp only [qualifyPathArgs]
          rw [qualifyPathImpl_no_shorthand m lc i .parenthesized
            (qualifySegList rest m) hsh
            (getIdent_paren lc i (qualifySegList (qualifySegList rest m) m))]
          simp only [qualifyPathArgs]
          rw [qualifySegList_idem m hm rest]
        | noArgs =>
          cases rest with
          | cons s2 r2 =>
            cases s2 with
            | mk j jargs =>
              rw [qualifyPathImpl_no_shorthand m lc i .noArgs
                (.cons (.mk j jargs) r2) hsh
                (by simp only [qualifySegList]
                    exact getIdent_cons_cons lc
                      (.mk i (qualifyPathArgs .noArgs m))
                      (.mk j (qualifyPathArgs jargs m)) _)]
              simp only [qualifyPathArgs, qualifySegList]
              rw [qualifyPathImpl_no_shorthand m lc i .noArgs
                (.cons (.mk j (qualifyPathArgs jargs m)) (qualifySegList r2 m))
                hsh
                (by simp only [qualifySegList]
                    exact getIdent_cons_cons lc
                      (.mk i (qualifyPathArgs .noArgs m))
                      (.mk j (qualifyPathArgs (qualifyPathArgs jargs m) m)) _)]
              simp only [qualifyPathArgs, qualifySegList]
              rw [qualifyPathArgs_idem m hm jargs, qualifySegList_idem m hm r2]
          | nil =>
            cases lc with
            | true =>
              rw [qualifyPathImpl_no_shorthand m true i .noArgs .nil hsh
                (getIdent_leading _)]
              simp only [qualifyPathArgs, qualifySegList]
              rw [qualifyPathImpl_no_shorthand m true i .noArgs .nil hsh
                (getIdent_leading _)]
              rfl
            | false =>
              rw [qualifyPathImpl_single m i hsh]
              cases hlk : mapLookup m i with
              | some q =>
                have : syn_ident_cxx_bridge_to_qualified_impl i m = q := by
                  simp only [syn_ident_cxx_bridge_to_qualified_impl, hlk]
                rw [this]
                exact hm i q hlk
              | none =>
                have : syn_ident_cxx_bridge_to_qualified_impl i m =
                    .mk false (.cons (.mk i .noArgs) .nil) := by
                  simp only [syn_ident_cxx_bridge_to_qualified_impl, hlk,
                    plainSeg]
                rw [this, qualifyPathImpl_single m i hsh, this]

/-- Elementwise idempotence for segment lists. -/
theorem qualifySegList_idem (m : Mapping)
    (hm : ∀ i p, mapLookup m i = Option.some p → qualifyPathImpl p m = p) :
    ∀ segs : SegList,
      qualifySegList (qualifySegList segs m) m = qualifySegList segs m
  | .nil => rfl
  | .cons (.mk i args) rest => by
      show SegList.cons (.mk i (qualifyPathArgs (qualifyPathArgs args m) m))
        (qualifySegList (qualifySegList rest m) m) = _
      rw [qualifyPathArgs_idem m hm args, qualifySegList_idem m hm rest]
      rfl

/-- Idempotence for a segment's arguments. -/
theorem qualifyPathArgs_idem (m : Mapping)
    (hm : ∀ i p, mapLookup m i = Option.some p → qualifyPathImpl p m = p) :
    ∀ args : PathArgs,
      qualifyPathArgs (qualifyPathArgs args m) m = qualifyPathArgs args m
  | .noArgs => rfl
  | .angleBracketed as => by
      show PathArgs.angleBracketed (qualifyGArgList (qualifyGArgList as m) m) = _
      rw [qualifyGArgList_idem m hm as]
      rfl
  | .parenthesized => rfl

/-- Elementwise idempotence for generic argument lists. -/
theorem qualifyGArgList_idem (m : Mapping)
    (hm : ∀ i p, mapLookup m i = Option.some p → qualifyPathImpl p m = p) :
    ∀ args : ArgList,
      qualifyGArgList (qualifyGArgList args m) m = qualifyGArgList args m
  | .nil => rfl
  | .cons a rest => by
      show ArgList.cons (qualifyGArg (qualifyGArg a m) m)
        (qualifyGArgList (qualifyGArgList rest m) m) = _
      rw [qualifyGArg_idem m hm a, qualifyGArgList_idem m hm rest]
      rfl

/-- Idempotence for one generic argument. -/
theorem qualifyGArg_idem (m : Mapping)
    (hm : ∀ i p, mapLookup m i = Option.some p → qualifyPathImpl p m = p) :
    ∀ a : GenericArg, qualifyGArg (qualifyGArg a m) m = qualifyGArg a m
  | .type t => by
      show GenericArg.type (syn_type_cxx_bridge_to_qualified
        (syn_type_cxx_bridge_to_qualified t m) m) = _
      rw [qualify_idem m hm t]
      rfl
  | .other => rfl

end

/-- Claim C7 counterexample: with the mapping sending A to the bare path
Pin, the output of the qualifier on the bare ident A is the path Pin —
an output of the qualifier under this mapping — and qualifying it again
yields core::pin::Pin, a different tree: double application differs from
single application. -/
theorem qualifier_idempotent_cex :
    syn_type_cxx_bridge_to_qualified
        (syn_type_cxx_bridge_to_qualified (bareTyOf ["A"])
          [("A", barePathOf ["Pin"])])
        [("A", barePathOf ["Pin"])] ≠
      syn_type_cxx_bridge_to_qualified (bareTyOf ["A"])
        [("A", barePathOf ["Pin"])] := by decide

/-- Claim C7 (amended): the qualifier is idempotent provided the mapping
is qualification-stable, i.e. every path in the mapping's image is
itself fixed by path qualification (as is the case for genuinely
fully-qualified mapping values, and vacuously for the empty mapping):
under that proviso, applying the qualifier twice to any type yields the
same tree as applying it once. -/
theorem qualifier_idempotent (m : Mapping)
    (hm : ∀ i p, mapLookup m i = Option.some p → qualifyPathImpl p m = p)
    (t : SynType) :
    syn_type_cxx_bridge_to_qualified
        (syn_type_cxx_bridge_to_qualified t m) m =
      syn_type_cxx_bridge_to_qualified t m :=
  qualify_idem m hm t

/-- Witness for C7: the mapping sending A to ffi::B is
qualification-stable, and double qualification of the nested generic
Pin applied to A equals single qualification. -/
theorem qualifier_idempotent_witness :
    syn_type_cxx_bridge_to_qualified
        (syn_type_cxx_bridge_to_qualified
          (generic1Ty "Pin" (bareTyOf ["A"])) [("A", barePathOf ["ffi", "B"])])
        [("A", barePathOf ["ffi", "B"])] =
      syn_type_cxx_bridge_to_qualified
        (generic1Ty "Pin" (bareTyOf ["A"])) [("A", barePathOf ["ffi", "B"])] :=
  qualifier_idempotent [("A", barePathOf ["ffi", "B"])]
    (by
      intro i p h
      rw [mapLookup] at h
      by_cases hi : "A" = i
      · rw [if_pos hi] at h
        rw [← Option.some.inj h]
        decide
      · rw [if_neg hi] at h
        exact Option.noConfusion h)
    (generic1Ty "Pin" (bareTyOf ["A"]))

/-- Claim C2: the boundary declaration emitted by the setter generator
is the single foreign function of the single extern block; it carries
the unsafe qualifier iff the safety classifier reports the value type
unsafe, takes the object by exclusive pinned reference and the value by
the declared type, and is annotated with the setter's C++ name. -/
theorem setter_bridge_decl_correct (idents : QPropertyName)
    (qobject_idents : QObjectName) (ty : SynType) :
    ∃ d : ExternRustFnDecl,
      (setter.generate idents qobject_idents ty).cxx_bridge =
        [.externRustBlock [d]] ∧
      (d.hasUnsafeQualifier = true ↔ syn_type_is_cxx_bridge_unsafe_ty ty = true) ∧
      d.cxx_name = idents.setter.cpp ∧
      d.name = idents.setter.rust ∧
      d.receiver = refMutTo qobject_idents.rust_struct.rust ∧
      d.args = [("cpp", pinMutRefTo qobject_idents.cpp_class.rust),
        ("value", ty)] := by
  refine ⟨_, rfl, ?_, rfl, rfl, rfl, rfl⟩
  exact Iff.rfl

/-- Claim C8: one call of the setter fragment generator produces exactly
one boundary declaration and exactly two implementation fragments — the
delegating wrapper and the mutator — all from the same call. -/
theorem setter_fragment_pairing (idents : QPropertyName)
    (qobject_idents : QObjectName) (ty : SynType) :
    (setter.generate idents qobject_idents ty).cxx_bridge.length = 1 ∧
    (setter.generate idents qobject_idents ty).implementation.length = 2 ∧
    (setter.generate idents qobject_idents ty).implementation =
      [.setterWrapperImpl qobject_idents.rust_struct.rust idents.setter.rust
        qobject_idents.cpp_class.rust ty,
       .setterMutatorImpl qobject_idents.cpp_class.rust idents.setter.rust
        idents.name.rust idents.notify.rust ty] :=
  ⟨rfl, rfl, rfl⟩

/-- Claim C9: the notify signal synthesizer produces a signal whose
declaration is named by the property's notify identifier, takes only the
receiver — exclusive pinned access to the owning object — and no value
arguments, and is recorded as originating from a property. -/
theorem signal_notify_declaration (idents : QPropertyName)
    (qobject_idents : QObjectName) :
    (signal.generate idents qobject_idents).method.name = idents.notify.rust ∧
    (signal.generate idents qobject_idents).method.receiver =
      pinMutRefTo qobject_idents.cpp_class.rust ∧
    (signal.generate idents qobject_idents).method.args = [] ∧
    (signal.generate idents qobject_idents).ident = idents.notify ∧
    (signal.generate idents qobject_idents).qobject_ident =
      qobject_idents.cpp_class.rust ∧
    (signal.generate idents qobject_idents).fromProperty = true :=
  ⟨rfl, rfl, rfl, rfl, rfl, rfl⟩

end CxxQtGen
